import Mathlib

/-!
Verification of the audio-race core.

Shallow embedding of the audio-reactive boat game's core logic:
the signal processor (`getFrequencyAverage`, `getFrequencyAverageWithDetails`),
the jump/dive physics state machine (`physics.ts`), the obstacle field
manager's spawn/type-selection and cleanup logic, and the two-lane race
variant's winner check.  JavaScript numbers are modelled as exact rationals;
`Uint8Array` entries as naturals bounded by 255.  Mutation of a record in the
source becomes explicit state passing here.
-/

namespace AudioRace

/-! ## Constants (from `constants.ts`) -/

def NOISE_THRESHOLD : ℕ := 120
def MAX_AUDIO_VALUE : ℕ := 255

def WORLD_SCROLL_SPEED : ℚ := 3

def JUMP_VELOCITY : ℚ := 10
def GRAVITY : ℚ := 30
def DIVE_DEPTH : ℚ := -(3/5)
def DIVE_SPEED : ℚ := 8

def ACTION_THRESHOLD : ℚ := 1/4
def ACTION_COOLDOWN : ℚ := 3/10

def OBSTACLE_SPAWN_DELAY : ℚ := 3
def OBSTACLE_MIN_GAP : ℚ := 4
def OBSTACLE_GAP_VARIANCE : ℚ := 3
def OBSTACLE_SPAWN_DISTANCE : ℚ := 8
def MAX_OBSTACLE_DUPLICATION : ℕ := 2

def BASE_SPEED_MULTIPLIER : ℚ := 1/100
def WHISTLE_BOOST : ℚ := 30
def SINGING_BOOST : ℚ := 11/5

/-! ## Signal processor (`utils/audio.ts`)

`data` models the `Uint8Array` of FFT amplitudes; an in-bounds read
`data[i]` is `data.getD i 0` (the claims' preconditions keep reads
in bounds, so the default is never observed). -/

/-- One rectified bin value: `data[i] > threshold ? data[i] - threshold : 0`. -/
def rectify (noiseThreshold : ℕ) (d : ℕ) : ℚ :=
  if noiseThreshold < d then (d : ℚ) - (noiseThreshold : ℚ) else 0

/-- `getFrequencyAverage` from `src/visualizers/utils/audio.ts`: sums the
rectified values over `[startBin, endBin)`, divides by the bin count and by
the available dynamic range. -/
def getFrequencyAverage (data : List ℕ) (startBin endBin : ℕ) : ℚ :=
  if endBin ≤ startBin then 0
  else
    let sum := ((List.range' startBin (endBin - startBin)).map
      (fun i => rectify NOISE_THRESHOLD (data.getD i 0))).sum
    sum / ((endBin : ℚ) - (startBin : ℚ)) / ((MAX_AUDIO_VALUE : ℚ) - (NOISE_THRESHOLD : ℚ))

/-- Result record of `getFrequencyAverageWithDetails`. -/
structure FrequencyDetails where
  raw : ℚ
  filtered : ℚ
  normalized : ℚ
  deriving DecidableEq

/-- `getFrequencyAverageWithDetails` from the audio debug overlay: takes the
noise threshold as an argument, uses a local `maxValue = 255`. -/
def getFrequencyAverageWithDetails (data : List ℕ) (startBin endBin noiseThreshold : ℕ) :
    FrequencyDetails :=
  if endBin ≤ startBin then ⟨0, 0, 0⟩
  else
    let maxValue : ℚ := 255
    let rawSum : ℚ := ((List.range' startBin (endBin - startBin)).map
      (fun i => ((data.getD i 0 : ℕ) : ℚ))).sum
    let filteredSum : ℚ := ((List.range' startBin (endBin - startBin)).map
      (fun i => rectify noiseThreshold (data.getD i 0))).sum
    let count : ℚ := (endBin : ℚ) - (startBin : ℚ)
    { raw := rawSum / count / maxValue
    , filtered := filteredSum / count / maxValue
    , normalized := filteredSum / count / (maxValue - (noiseThreshold : ℚ)) }

/-! ## Physics state machine (`physics.ts`) -/

structure PhysicsState where
  velocityY : ℚ
  isJumping : Bool
  isDiving : Bool
  diveProgress : ℚ
  actionCooldown : ℚ
  deriving DecidableEq

def createPhysicsState : PhysicsState :=
  { velocityY := 0
  , isJumping := false
  , isDiving := false
  , diveProgress := 0
  , actionCooldown := 0 }

def resetPhysicsState (_s : PhysicsState) : PhysicsState :=
  { velocityY := 0
  , isJumping := false
  , isDiving := false
  , diveProgress := 0
  , actionCooldown := 0 }

/-- `triggerJump`: returns the updated state and the source's boolean result. -/
def triggerJump (s : PhysicsState) : PhysicsState × Bool :=
  if s.isJumping = false ∧ s.isDiving = false ∧ s.actionCooldown = 0 then
    ({ s with isJumping := true, velocityY := JUMP_VELOCITY }, true)
  else (s, false)

/-- `triggerDive`: returns the updated state and the source's boolean result. -/
def triggerDive (s : PhysicsState) : PhysicsState × Bool :=
  if s.isJumping = false ∧ s.isDiving = false then
    ({ s with isDiving := true }, true)
  else (s, false)

/-- `checkAudioTriggers`. -/
def checkAudioTriggers (s : PhysicsState) (jumpLoudness diveLoudness : ℚ) : PhysicsState :=
  if s.isJumping = true ∨ s.isDiving = true then s
  else if ACTION_THRESHOLD < jumpLoudness ∧ s.actionCooldown = 0 then
    (triggerJump s).1
  else if ACTION_THRESHOLD < diveLoudness then
    (triggerDive s).1
  else s

/-- `updatePhysics`: returns the updated state together with the Y position
returned by the source function. -/
def updatePhysics (s : PhysicsState) (dt waterLevel : ℚ) (isDiveHeld : Bool) :
    PhysicsState × ℚ :=
  -- Decrement cooldown timer
  let s1 := if 0 < s.actionCooldown then
    { s with actionCooldown := max 0 (s.actionCooldown - dt) } else s
  -- Apply jump physics
  if s1.isJumping then
    let v := s1.velocityY - GRAVITY * dt
    let newY := waterLevel + v * dt
    if newY ≤ waterLevel then
      ({ s1 with velocityY := 0, isJumping := false, actionCooldown := ACTION_COOLDOWN },
        waterLevel)
    else
      ({ s1 with velocityY := v }, newY)
  -- Apply dive physics
  else if s1.isDiving then
    if isDiveHeld then
      let p := min 1 (s1.diveProgress + DIVE_SPEED * dt)
      ({ s1 with diveProgress := p }, waterLevel + DIVE_DEPTH * p)
    else
      let p := max 0 (s1.diveProgress - DIVE_SPEED * dt)
      ({ s1 with diveProgress := p, isDiving := if p = 0 then false else s1.isDiving },
        waterLevel + DIVE_DEPTH * p)
  -- Float on water
  else (s1, waterLevel)

/-- The per-race invariant claimed for `PhysicsState`. -/
def PhysicsStateInv (s : PhysicsState) : Prop :=
  ¬(s.isJumping = true ∧ s.isDiving = true) ∧
  0 ≤ s.diveProgress ∧ s.diveProgress ≤ 1 ∧
  0 ≤ s.actionCooldown

instance (s : PhysicsState) : Decidable (PhysicsStateInv s) := by
  unfold PhysicsStateInv; infer_instance

/-- One call into the physics module. -/
inductive PhysOp where
  | reset : PhysOp
  | jump : PhysOp
  | dive : PhysOp
  | audio : ℚ → ℚ → PhysOp
  | update : ℚ → ℚ → Bool → PhysOp
  deriving DecidableEq

def applyPhysOp (s : PhysicsState) : PhysOp → PhysicsState
  | .reset => resetPhysicsState s
  | .jump => (triggerJump s).1
  | .dive => (triggerDive s).1
  | .audio jl dl => checkAudioTriggers s jl dl
  | .update dt wl held => (updatePhysics s dt wl held).1

/-- A call is a frame-loop call: `updatePhysics` receives a nonnegative
elapsed time. -/
def PhysOp.hasNonnegDt : PhysOp → Prop
  | .update dt _ _ => 0 ≤ dt
  | _ => True

instance (op : PhysOp) : Decidable op.hasNonnegDt := by
  cases op <;> (unfold PhysOp.hasNonnegDt; infer_instance)

/-- Run a call sequence from the initial state `createPhysicsState()`. -/
def runPhysOps (ops : List PhysOp) : PhysicsState :=
  ops.foldl applyPhysOp createPhysicsState

/-- The state right after `triggerJump` fires from the initial state. -/
def jumpStart : PhysicsState :=
  (triggerJump createPhysicsState).1

/-- Number of `updatePhysics dt waterLevel` frames (dive not held) until the
jumping flag clears, counted with explicit fuel; `none` if it has not cleared
within `fuel` frames. -/
def framesToLand (s : PhysicsState) (dt waterLevel : ℚ) : ℕ → Option ℕ
  | 0 => none
  | fuel + 1 =>
      let s' := (updatePhysics s dt waterLevel false).1
      if s'.isJumping then
        match framesToLand s' dt waterLevel fuel with
        | some k => some (k + 1)
        | none => none
      else some 1

/-! ## Obstacle field manager (`ObstacleManager` and `three/obstacles.ts`) -/

inductive ObstacleType where
  | SPIRAL : ObstacleType
  | MOLAR : ObstacleType
  | TOOTHBRUSH : ObstacleType
  deriving DecidableEq

def getJumpObstacleTypes : List ObstacleType := [.SPIRAL, .MOLAR]

def getDiveObstacleTypes : List ObstacleType := [.TOOTHBRUSH]

/-- `[...getJumpObstacleTypes(), ...getDiveObstacleTypes()]`. -/
def allObstacleTypes : List ObstacleType := getJumpObstacleTypes ++ getDiveObstacleTypes

/-- An obstacle: its type and spawn-time absolute world position.  (The
mesh/config presentation data is out of the model's scope.) -/
structure Obstacle where
  type : ObstacleType
  worldX : ℚ
  deriving DecidableEq

/-- `isObstacleOffScreen`: screen X (`worldX - worldOffset`) is past `-5`. -/
def isObstacleOffScreen (obs : Obstacle) (worldOffset : ℚ) : Bool :=
  decide (obs.worldX - worldOffset < -5)

/-- `removeOffScreen`: keeps exactly the obstacles that are not off-screen. -/
def removeOffScreen (obstacles : List Obstacle) (worldOffset : ℚ) : List Obstacle :=
  obstacles.filter (fun obs => ! isObstacleOffScreen obs worldOffset)

/-- The trailing run-length loop of `trySpawn`: `lastType` is the final
element of the history and the loop counts backwards while entries equal
`lastType`; on an empty history the count is 0. -/
def consecutiveCount (history : List ObstacleType) : ℕ :=
  match history.getLast? with
  | none => 0
  | some lastType => (history.reverse.takeWhile (fun t => decide (t = lastType))).length

/-- The type-selection step of `trySpawn`.  `typeRand` models the random
draw: `l[Math.floor(Math.random() * l.length)]` becomes indexing at
`typeRand % l.length` (every index of the pool is reachable).  `lastType`
(`history[history.length - 1]`, undefined on an empty history) is only
consulted when the duplication cap was hit, which forces the history
nonempty, so the `getD` defaults are never observed. -/
def selectObstacleType (history : List ObstacleType) (typeRand : ℕ) : ObstacleType :=
  if MAX_OBSTACLE_DUPLICATION ≤ consecutiveCount history then
    let lastType := history.getLast?.getD .SPIRAL
    let otherTypes := allObstacleTypes.filter (fun t => decide (t ≠ lastType))
    otherTypes.getD (typeRand % otherTypes.length) lastType
  else
    allObstacleTypes.getD (typeRand % allObstacleTypes.length) .SPIRAL

/-- Mutable state of an `ObstacleManager`, plus the ghost field
`spawnedTypes` recording every type ever spawned (the capped
`obstacleHistory` keeps only the last 10). -/
structure ObstacleManagerState where
  obstacles : List Obstacle
  lastObstacleWorldX : ℚ
  obstacleHistory : List ObstacleType
  spawnedTypes : List ObstacleType
  deriving DecidableEq

def initialObstacleManagerState : ObstacleManagerState :=
  { obstacles := []
  , lastObstacleWorldX := 0
  , obstacleHistory := []
  , spawnedTypes := [] }

/-- `ObstacleManager.trySpawn`.  `gapRand` models `Math.random()` in the gap
computation and `typeRand` the type draw. -/
def trySpawn (st : ObstacleManagerState) (worldOffset gapRand : ℚ) (typeRand : ℕ) :
    ObstacleManagerState :=
  let timeSinceStart := worldOffset / WORLD_SCROLL_SPEED
  if timeSinceStart ≤ OBSTACLE_SPAWN_DELAY then st
  else
    let spawnThreshold := worldOffset + OBSTACLE_SPAWN_DISTANCE
    let gap := OBSTACLE_MIN_GAP + gapRand * OBSTACLE_GAP_VARIANCE
    if st.lastObstacleWorldX ≠ 0 ∧ spawnThreshold ≤ st.lastObstacleWorldX + gap then st
    else
      let selectedType := selectObstacleType st.obstacleHistory typeRand
      let newHistory := st.obstacleHistory ++ [selectedType]
      { obstacles := st.obstacles ++ [⟨selectedType, spawnThreshold⟩]
      , lastObstacleWorldX := spawnThreshold
      , obstacleHistory := if 10 < newHistory.length then newHistory.tail else newHistory
      , spawnedTypes := st.spawnedTypes ++ [selectedType] }

/-- One `trySpawn` call's inputs: world offset, gap randomness, type randomness. -/
structure SpawnCall where
  worldOffset : ℚ
  gapRand : ℚ
  typeRand : ℕ
  deriving DecidableEq

/-- Run a sequence of `trySpawn` calls from a freshly reset manager. -/
def runSpawns (calls : List SpawnCall) : ObstacleManagerState :=
  calls.foldl (fun st c => trySpawn st c.worldOffset c.gapRand c.typeRand)
    initialObstacleManagerState

/-- A run of three or more identical consecutive types occurs in `l`. -/
def hasTripleRun (l : List ObstacleType) : Prop :=
  ∃ t, [t, t, t] <:+: l

/-! ## Two-lane race variant (winner check of the canvas racer's `animate`) -/

inductive Winner where
  | red : Winner
  | blue : Winner
  deriving DecidableEq

structure RaceFrameResult where
  boat1Pos : ℚ
  boat2Pos : ℚ
  winner : Option Winner
  deriving DecidableEq

/-- One race-screen frame of the two-lane variant's `animate`: accumulate
each lane's speed, clamp at the finish line, then check for a winner
(`boat1Pos > boat2Pos ? red : blue` whenever either lane reached 1). -/
def raceFrame (boat1Pos boat2Pos boat1Speed boat2Speed : ℚ) : RaceFrameResult :=
  let p1 := boat1Pos + boat1Speed * BASE_SPEED_MULTIPLIER * WHISTLE_BOOST
  let p2 := boat2Pos + boat2Speed * BASE_SPEED_MULTIPLIER * SINGING_BOOST
  let p1 := min p1 1
  let p2 := min p2 1
  let winner : Option Winner :=
    if 1 ≤ p1 ∨ 1 ≤ p2 then some (if p2 < p1 then .red else .blue) else none
  { boat1Pos := p1, boat2Pos := p2, winner := winner }

/-! ## Claim theorems -/

/-- A rectified bin value is nonnegative. -/
theorem rectify_nonneg (nt d : ℕ) : 0 ≤ rectify nt d := by
  unfold rectify
  split_ifs with h
  · have hc : (nt:ℚ) ≤ (d:ℚ) := by exact_mod_cast h.le
    linarith
  · exact le_refl 0

/-- A rectified bin value is at most the available dynamic range. -/
theorem rectify_le (nt d : ℕ) (hd : d ≤ 255) (hnt : nt ≤ 255) :
    rectify nt d ≤ 255 - (nt:ℚ) := by
  unfold rectify
  split_ifs with h
  · have hc : (d:ℚ) ≤ 255 := by exact_mod_cast hd
    linarith
  · have hc : (nt:ℚ) ≤ 255 := by exact_mod_cast hnt
    linarith

/-- C1: for in-bounds bin indices, `getFrequencyAverage` returns a value in
`[0, 1]` when `startBin < endBin`, and exactly 0 when `startBin ≥ endBin`. -/
theorem c1_average_bounds (data : List ℕ) (startBin endBin : ℕ)
    (h255 : ∀ v ∈ data, v ≤ 255) (hbound : endBin ≤ data.length) :
    (startBin < endBin →
      0 ≤ getFrequencyAverage data startBin endBin ∧
      getFrequencyAverage data startBin endBin ≤ 1) ∧
    (endBin ≤ startBin → getFrequencyAverage data startBin endBin = 0) := by
  constructor
  · intro hlt
    unfold getFrequencyAverage
    rw [if_neg (not_le.mpr hlt)]
    have hmem : ∀ x ∈ (List.range' startBin (endBin - startBin)).map
        (fun i => rectify NOISE_THRESHOLD (data.getD i 0)),
        0 ≤ x ∧ x ≤ 255 - (NOISE_THRESHOLD:ℚ) := by
      intro x hx
      obtain ⟨i, hi, rfl⟩ := List.mem_map.mp hx
      rw [List.mem_range'_1] at hi
      have hilen : i < data.length := by
        have : i < endBin := by omega
        omega
      have hdmem : data.getD i 0 ∈ data := by
        rw [List.getD_eq_getElem data 0 hilen]
        exact List.getElem_mem hilen
      exact ⟨rectify_nonneg _ _,
        rectify_le _ _ (h255 _ hdmem) (by norm_num [NOISE_THRESHOLD])⟩
    have hsum0 : 0 ≤ ((List.range' startBin (endBin - startBin)).map
        (fun i => rectify NOISE_THRESHOLD (data.getD i 0))).sum :=
      List.sum_nonneg fun x hx => (hmem x hx).1
    have hsumle : ((List.range' startBin (endBin - startBin)).map
        (fun i => rectify NOISE_THRESHOLD (data.getD i 0))).sum ≤
        ((endBin : ℚ) - startBin) * (255 - (NOISE_THRESHOLD:ℚ)) := by
      have := List.sum_le_card_nsmul
        ((List.range' startBin (endBin - startBin)).map
          (fun i => rectify NOISE_THRESHOLD (data.getD i 0)))
        (255 - (NOISE_THRESHOLD:ℚ)) (fun x hx => (hmem x hx).2)
      rw [List.length_map, List.length_range', nsmul_eq_mul, Nat.cast_sub hlt.le] at this
      exact this
    have hden : (0:ℚ) < (endBin : ℚ) - startBin := by
      have : (startBin:ℚ) < endBin := by exact_mod_cast hlt
      linarith
    have hrange : (0:ℚ) < (MAX_AUDIO_VALUE:ℚ) - (NOISE_THRESHOLD:ℚ) := by
      norm_num [MAX_AUDIO_VALUE, NOISE_THRESHOLD]
    constructor
    · exact div_nonneg (div_nonneg hsum0 hden.le) hrange.le
    · rw [div_div, div_le_one (by positivity)]
      calc ((List.range' startBin (endBin - startBin)).map
            (fun i => rectify NOISE_THRESHOLD (data.getD i 0))).sum
          ≤ ((endBin : ℚ) - startBin) * (255 - (NOISE_THRESHOLD:ℚ)) := hsumle
        _ = ((endBin : ℚ) - startBin) * ((MAX_AUDIO_VALUE:ℚ) - (NOISE_THRESHOLD:ℚ)) := by
            norm_num [MAX_AUDIO_VALUE]
  · intro hge
    unfold getFrequencyAverage
    rw [if_pos hge]

/-- With a clamped dive progress `q ∈ [0,1]`, the dive Y position
`waterLevel + DIVE_DEPTH * q` stays within `[waterLevel + DIVE_DEPTH, waterLevel]`. -/
theorem diveY_bounds (waterLevel q : ℚ) (h0 : 0 ≤ q) (h1 : q ≤ 1) :
    waterLevel + DIVE_DEPTH ≤ waterLevel + DIVE_DEPTH * q ∧
    waterLevel + DIVE_DEPTH * q ≤ waterLevel := by
  unfold DIVE_DEPTH
  constructor <;> nlinarith

/-- C10: under the state invariant and a nonnegative frame time, the Y
position returned by `updatePhysics` never drops below
`waterLevel + DIVE_DEPTH`; when not diving it is at least `waterLevel`, and
when diving it lies in `[waterLevel + DIVE_DEPTH, waterLevel]`. -/
theorem c10_y_bounds (s : PhysicsState) (dt waterLevel : ℚ) (held : Bool)
    (hp0 : 0 ≤ s.diveProgress) (hp1 : s.diveProgress ≤ 1) (hdt : 0 ≤ dt)
    (hex : ¬(s.isJumping = true ∧ s.isDiving = true)) :
    waterLevel + DIVE_DEPTH ≤ (updatePhysics s dt waterLevel held).2 ∧
    (s.isDiving = false → waterLevel ≤ (updatePhysics s dt waterLevel held).2) ∧
    (s.isDiving = true →
      waterLevel + DIVE_DEPTH ≤ (updatePhysics s dt waterLevel held).2 ∧
      (updatePhysics s dt waterLevel held).2 ≤ waterLevel) := by
  have hdd : DIVE_DEPTH ≤ 0 := by norm_num [DIVE_DEPTH]
  have hheld0 : 0 ≤ min 1 (s.diveProgress + DIVE_SPEED * dt) :=
    le_min (by norm_num) (by unfold DIVE_SPEED; nlinarith)
  have hheld1 : min 1 (s.diveProgress + DIVE_SPEED * dt) ≤ 1 := min_le_left _ _
  have hrise0 : 0 ≤ max 0 (s.diveProgress - DIVE_SPEED * dt) := le_max_left _ _
  have hrise1 : max 0 (s.diveProgress - DIVE_SPEED * dt) ≤ 1 :=
    max_le (by norm_num) (by unfold DIVE_SPEED; nlinarith)
  simp only [updatePhysics]
  set s1 := if 0 < s.actionCooldown then
    { s with actionCooldown := max 0 (s.actionCooldown - dt) } else s with hs1
  have hs1J : s1.isJumping = s.isJumping := by rw [hs1]; split_ifs <;> rfl
  have hs1D : s1.isDiving = s.isDiving := by rw [hs1]; split_ifs <;> rfl
  have hs1P : s1.diveProgress = s.diveProgress := by rw [hs1]; split_ifs <;> rfl
  cases hj : s.isJumping with
  | true =>
    have hdF : s.isDiving = false := by
      cases hd : s.isDiving
      · rfl
      · exact absurd ⟨hj, hd⟩ hex
    simp only [hs1J, hj, hdF, if_true]
    split_ifs with hl
    · dsimp only
      refine ⟨by linarith, fun _ => le_refl _, fun hdT => absurd hdT (by simp)⟩
    · push_neg at hl
      dsimp only
      refine ⟨by linarith, fun _ => hl.le, fun hdT => absurd hdT (by simp)⟩
  | false =>
    simp only [hs1J, hj, Bool.false_eq_true, if_false]
    cases hd : s.isDiving with
    | true =>
      simp only [hs1D, hd, if_true]
      cases held with
      | true =>
        simp only [if_true, hs1P]
        have hb := diveY_bounds waterLevel _ hheld0 hheld1
        refine ⟨hb.1, fun h => absurd h (by simp), fun _ => hb⟩
      | false =>
        simp only [Bool.false_eq_true, if_false, hs1P]
        have hb := diveY_bounds waterLevel _ hrise0 hrise1
        refine ⟨hb.1, fun h => absurd h (by simp), fun _ => hb⟩
    | false =>
      simp only [hs1D, hd, Bool.false_eq_true, if_false]
      refine ⟨by linarith, fun _ => le_refl _, fun hdT => absurd hdT (by simp)⟩

/-- Witness for C10: a half-submerged diving state updated for one
60 fps frame with the dive held. -/
theorem c10_y_bounds_witness :
    0 + DIVE_DEPTH ≤ (updatePhysics ⟨0, false, true, 1/2, 0⟩ (1/60) 0 true).2 ∧
    ((⟨0, false, true, 1/2, 0⟩ : PhysicsState).isDiving = true →
      0 + DIVE_DEPTH ≤ (updatePhysics ⟨0, false, true, 1/2, 0⟩ (1/60) 0 true).2 ∧
      (updatePhysics ⟨0, false, true, 1/2, 0⟩ (1/60) 0 true).2 ≤ 0) :=
  ⟨(c10_y_bounds ⟨0, false, true, 1/2, 0⟩ (1/60) 0 true (by norm_num) (by norm_num)
      (by norm_num) (by simp)).1,
   (c10_y_bounds ⟨0, false, true, 1/2, 0⟩ (1/60) 0 true (by norm_num) (by norm_num)
      (by norm_num) (by simp)).2.2⟩

/-- The reset state satisfies the physics invariant. -/
theorem inv_resetPhysicsState (s : PhysicsState) :
    PhysicsStateInv (resetPhysicsState s) := by
  unfold resetPhysicsState PhysicsStateInv
  refine ⟨by simp, by norm_num, by norm_num, by norm_num⟩

/-- The initial state satisfies the physics invariant. -/
theorem inv_createPhysicsState : PhysicsStateInv createPhysicsState := by
  unfold createPhysicsState PhysicsStateInv
  refine ⟨by simp, by norm_num, by norm_num, by norm_num⟩

/-- `triggerJump` preserves the physics invariant. -/
theorem inv_triggerJump (s : PhysicsState) (h : PhysicsStateInv s) :
    PhysicsStateInv (triggerJump s).1 := by
  unfold triggerJump
  split_ifs with hc
  · exact ⟨by simp [hc.2.1], h.2.1, h.2.2.1, h.2.2.2⟩
  · exact h

/-- `triggerDive` preserves the physics invariant. -/
theorem inv_triggerDive (s : PhysicsState) (h : PhysicsStateInv s) :
    PhysicsStateInv (triggerDive s).1 := by
  unfold triggerDive
  split_ifs with hc
  · exact ⟨by simp [hc.1], h.2.1, h.2.2.1, h.2.2.2⟩
  · exact h

/-- `checkAudioTriggers` preserves the physics invariant. -/
theorem inv_checkAudioTriggers (s : PhysicsState) (jl dl : ℚ)
    (h : PhysicsStateInv s) : PhysicsStateInv (checkAudioTriggers s jl dl) := by
  unfold checkAudioTriggers
  split_ifs
  · exact h
  · exact inv_triggerJump s h
  · exact inv_triggerDive s h
  · exact h

/-- `updatePhysics` with a nonnegative frame time preserves the physics
invariant. -/
theorem inv_updatePhysics (s : PhysicsState) (dt wl : ℚ) (held : Bool)
    (h : PhysicsStateInv s) (hdt : 0 ≤ dt) :
    PhysicsStateInv (updatePhysics s dt wl held).1 := by
  simp only [updatePhysics]
  set s1 := if 0 < s.actionCooldown then
    { s with actionCooldown := max 0 (s.actionCooldown - dt) } else s with hs1
  have hs1J : s1.isJumping = s.isJumping := by rw [hs1]; split_ifs <;> rfl
  have hs1D : s1.isDiving = s.isDiving := by rw [hs1]; split_ifs <;> rfl
  have hs1P : s1.diveProgress = s.diveProgress := by rw [hs1]; split_ifs <;> rfl
  have hInv1 : PhysicsStateInv s1 := by
    rw [hs1]
    split_ifs
    · exact ⟨h.1, h.2.1, h.2.2.1, le_max_left 0 _⟩
    · exact h
  cases hj : s.isJumping with
  | true =>
    simp only [hs1J, hj, if_true]
    split_ifs with hl
    · exact ⟨by simp, hInv1.2.1, hInv1.2.2.1, by norm_num [ACTION_COOLDOWN]⟩
    · refine ⟨?_, hInv1.2.1, hInv1.2.2.1, hInv1.2.2.2⟩
      intro hb
      refine h.1 ⟨hj, ?_⟩
      have := hb.2
      rw [hs1D] at this
      exact this
  | false =>
    simp only [hs1J, hj, Bool.false_eq_true, if_false]
    cases hd : s.isDiving with
    | true =>
      simp only [hs1D, hd, if_true]
      cases held with
      | true =>
        simp only [if_true]
        refine ⟨by simp [hs1J, hj], ?_, ?_, hInv1.2.2.2⟩
        · exact le_min (by norm_num)
            (by rw [hs1P]; unfold DIVE_SPEED; nlinarith [h.2.1])
        · exact min_le_left _ _
      | false =>
        simp only [Bool.false_eq_true, if_false]
        refine ⟨by simp [hs1J, hj], le_max_left _ _, ?_, hInv1.2.2.2⟩
        exact max_le (by norm_num)
          (by rw [hs1P]; unfold DIVE_SPEED; nlinarith [h.2.2.1])
    | false =>
      simp only [hs1D, hd, Bool.false_eq_true, if_false]
      exact hInv1

/-- One physics-module call with a frame-loop time preserves the invariant. -/
theorem inv_applyPhysOp (s : PhysicsState) (op : PhysOp)
    (h : PhysicsStateInv s) (hop : op.hasNonnegDt) :
    PhysicsStateInv (applyPhysOp s op) := by
  cases op with
  | reset => exact inv_resetPhysicsState s
  | jump => exact inv_triggerJump s h
  | dive => exact inv_triggerDive s h
  | audio jl dl => exact inv_checkAudioTriggers s jl dl h
  | update dt wl held => exact inv_updatePhysics s dt wl held h hop

/-- C2: after any sequence of physics-module calls from the initial state
(each `updatePhysics` call receiving a nonnegative frame time), the state
invariant holds: the jump and dive flags are never both set, `diveProgress`
stays in `[0, 1]`, and `actionCooldown` stays nonnegative. -/
theorem c2_invariant_reachable (ops : List PhysOp)
    (h : ∀ op ∈ ops, op.hasNonnegDt) : PhysicsStateInv (runPhysOps ops) := by
  suffices H : ∀ (l : List PhysOp) (s : PhysicsState), PhysicsStateInv s →
      (∀ op ∈ l, op.hasNonnegDt) → PhysicsStateInv (l.foldl applyPhysOp s) by
    exact H ops createPhysicsState inv_createPhysicsState h
  intro l
  induction l with
  | nil => exact fun s hs _ => hs
  | cons op l ih =>
      intro s hs hl
      exact ih _ (inv_applyPhysOp s op hs (hl op (by simp)))
        (fun o ho => hl o (by simp [ho]))

/-- Witness for C2: a jump, two frames, an audio trigger, a dive and a reset. -/
theorem c2_invariant_reachable_witness :
    PhysicsStateInv (runPhysOps
      [.jump, .update (1/60) 0 false, .audio 1 1, .dive,
       .update (1/30) 0 true, .reset]) :=
  c2_invariant_reachable _ (by
    intro op hop
    fin_cases hop <;> first | trivial | norm_num [PhysOp.hasNonnegDt])

/-- Witness for C1 on `[200, 0, 255]` over the full range `[0, 3)`. -/
theorem c1_average_bounds_witness :
    0 ≤ getFrequencyAverage [200, 0, 255] 0 3 ∧
    getFrequencyAverage [200, 0, 255] 0 3 ≤ 1 :=
  (c1_average_bounds [200, 0, 255] 0 3 (by decide) (by decide)).1 (by decide)

/-- C9: `getFrequencyAverageWithDetails([200,200,200], 0, 3, 100)` rectifies
each value to 100, and its normalized output is `100/155`. -/
theorem c9_average_scenario :
    (getFrequencyAverageWithDetails [200, 200, 200] 0 3 100).normalized = 100 / 155 := by
  simp only [getFrequencyAverageWithDetails, rectify, List.range']
  norm_num

/-- C5: from an idle state with zero cooldown, if both loudness inputs are
strictly above the action threshold, `checkAudioTriggers` fires the jump:
`isJumping` becomes true, `velocityY` becomes `JUMP_VELOCITY`, and
`isDiving` stays false. -/
theorem c5_jump_wins_tie (s : PhysicsState) (jl dl : ℚ)
    (hj : s.isJumping = false) (hd : s.isDiving = false) (hc : s.actionCooldown = 0)
    (h1 : ACTION_THRESHOLD < jl) (_h2 : ACTION_THRESHOLD < dl) :
    (checkAudioTriggers s jl dl).isJumping = true ∧
    (checkAudioTriggers s jl dl).velocityY = JUMP_VELOCITY ∧
    (checkAudioTriggers s jl dl).isDiving = false := by
  simp [checkAudioTriggers, triggerJump, hj, hd, hc, h1]

/-- Witness for C5 at the initial state with both loudness values 1. -/
theorem c5_jump_wins_tie_witness :
    (checkAudioTriggers createPhysicsState 1 1).isJumping = true ∧
    (checkAudioTriggers createPhysicsState 1 1).velocityY = JUMP_VELOCITY ∧
    (checkAudioTriggers createPhysicsState 1 1).isDiving = false :=
  c5_jump_wins_tie createPhysicsState 1 1 rfl rfl rfl
    (by norm_num [ACTION_THRESHOLD]) (by norm_num [ACTION_THRESHOLD])

/-- C6: with a strictly positive cooldown, `triggerJump` returns false and
leaves every field of the state unchanged. -/
theorem c6_cooldown_blocks_jump (s : PhysicsState) (h : 0 < s.actionCooldown) :
    triggerJump s = (s, false) := by
  unfold triggerJump
  rw [if_neg]
  rintro ⟨-, -, h0⟩
  rw [h0] at h
  exact lt_irrefl 0 h

/-- Witness for C6: a freshly landed state (cooldown `ACTION_COOLDOWN`). -/
theorem c6_cooldown_blocks_jump_witness :
    triggerJump ⟨0, false, false, 0, ACTION_COOLDOWN⟩ =
      (⟨0, false, false, 0, ACTION_COOLDOWN⟩, false) :=
  c6_cooldown_blocks_jump ⟨0, false, false, 0, ACTION_COOLDOWN⟩
    (by show (0:ℚ) < ACTION_COOLDOWN; norm_num [ACTION_COOLDOWN])

/-- C7: in a two-lane race frame, if one lane's clamped accumulator has
reached 1 while the other is still strictly below 1, the frame reports a
winner and it is the lane that reached 1 (symmetrically for either lane). -/
theorem c7_first_to_finish_wins (p1 p2 s1 s2 : ℚ) :
    ((raceFrame p1 p2 s1 s2).boat1Pos = 1 → (raceFrame p1 p2 s1 s2).boat2Pos < 1 →
      (raceFrame p1 p2 s1 s2).winner = some .red) ∧
    ((raceFrame p1 p2 s1 s2).boat2Pos = 1 → (raceFrame p1 p2 s1 s2).boat1Pos < 1 →
      (raceFrame p1 p2 s1 s2).winner = some .blue) := by
  simp only [raceFrame]
  constructor
  · intro h1 h2
    rw [if_pos (Or.inl (le_of_eq h1.symm)), if_pos (h2.trans_le h1.symm.le)]
  · intro h1 h2
    rw [if_pos (Or.inr (le_of_eq h1.symm)),
      if_neg (not_lt.mpr (le_of_lt (h2.trans_le h1.symm.le)))]

/-- Witness for C7: lane 1 crosses the line this frame while lane 2 is at 0,
so red is reported; and the mirrored frame reports blue. -/
theorem c7_first_to_finish_wins_witness :
    (raceFrame (99/100) 0 1 0).winner = some .red ∧
    (raceFrame 0 (99/100) 0 1).winner = some .blue :=
  ⟨(c7_first_to_finish_wins (99/100) 0 1 0).1
      (by simp only [raceFrame]
          norm_num [BASE_SPEED_MULTIPLIER, WHISTLE_BOOST, SINGING_BOOST])
      (by simp only [raceFrame]
          norm_num [BASE_SPEED_MULTIPLIER, WHISTLE_BOOST, SINGING_BOOST]),
   (c7_first_to_finish_wins 0 (99/100) 0 1).2
      (by simp only [raceFrame]
          norm_num [BASE_SPEED_MULTIPLIER, WHISTLE_BOOST, SINGING_BOOST])
      (by simp only [raceFrame]
          norm_num [BASE_SPEED_MULTIPLIER, WHISTLE_BOOST, SINGING_BOOST])⟩

/-- C8: if every live obstacle's screen position `worldX − worldOffset` is
below the `-5` cutoff then `removeOffScreen` empties the collection, and
`removeOffScreen` never removes an obstacle whose screen position is at or
above the cutoff. -/
theorem c8_remove_off_screen (obstacles : List Obstacle) (worldOffset : ℚ) :
    ((∀ obs ∈ obstacles, obs.worldX - worldOffset < -5) →
      removeOffScreen obstacles worldOffset = []) ∧
    (∀ obs ∈ obstacles, ¬(obs.worldX - worldOffset < -5) →
      obs ∈ removeOffScreen obstacles worldOffset) := by
  constructor
  · intro h
    simp only [removeOffScreen, isObstacleOffScreen, List.filter_eq_nil_iff]
    intro obs hmem
    simp [h obs hmem]
  · intro obs hmem hnot
    simp only [removeOffScreen, isObstacleOffScreen, List.mem_filter]
    exact ⟨hmem, by simp [hnot]⟩

/-- Witness for C8: a fully passed obstacle is removed; one still on screen
survives. -/
theorem c8_remove_off_screen_witness :
    removeOffScreen [⟨.SPIRAL, 1⟩] 10 = [] ∧
    (⟨.MOLAR, 8⟩ : Obstacle) ∈ removeOffScreen [⟨.SPIRAL, 1⟩, ⟨.MOLAR, 8⟩] 10 :=
  ⟨(c8_remove_off_screen [⟨.SPIRAL, 1⟩] 10).1
      (by intro obs hmem
          simp only [List.mem_singleton] at hmem
          subst hmem
          norm_num),
   (c8_remove_off_screen [⟨.SPIRAL, 1⟩, ⟨.MOLAR, 8⟩] 10).2 ⟨.MOLAR, 8⟩
      (by simp) (by norm_num)⟩

/-- One `updatePhysics` frame of an airborne jump with zero cooldown that
lands: when the candidate Y does not exceed the water level, velocity zeroes,
the jump flag clears and the cooldown starts. -/
theorem updatePhysics_jump_land (v p wl dt : ℚ) (held : Bool)
    (hland : (v - GRAVITY * dt) * dt ≤ 0) :
    updatePhysics ⟨v, true, false, p, 0⟩ dt wl held =
      (⟨0, false, false, p, ACTION_COOLDOWN⟩, wl) := by
  simp only [updatePhysics, lt_self_iff_false, if_false, if_true]
  rw [if_pos (by linarith)]

/-- One `updatePhysics` frame of an airborne jump with zero cooldown that
stays in the air: velocity is integrated and the frame's Y offset is
`velocity * dt` above the water level. -/
theorem updatePhysics_jump_air (v p wl dt : ℚ) (held : Bool)
    (hair : 0 < (v - GRAVITY * dt) * dt) :
    updatePhysics ⟨v, true, false, p, 0⟩ dt wl held =
      (⟨v - GRAVITY * dt, true, false, p, 0⟩, wl + (v - GRAVITY * dt) * dt) := by
  simp only [updatePhysics, lt_self_iff_false, if_false, if_true]
  rw [if_neg (by linarith)]

/-- With frame time `dt = 1/(3m)`, a jump in flight with velocity `10·k/m`
needs exactly `k` more frames until the jumping flag clears. -/
theorem framesToLand_linear (m : ℕ) (hm : 1 ≤ m) :
    ∀ k : ℕ, 1 ≤ k →
      framesToLand ⟨10 * (k:ℚ) / (m:ℚ), true, false, 0, 0⟩ (1 / (3 * (m:ℚ))) 0 k =
        some k := by
  have hm0 : ((m:ℚ)) ≠ 0 := Nat.cast_ne_zero.mpr (by omega)
  have hmp : (0:ℚ) < m := by
    have : (1:ℚ) ≤ m := by exact_mod_cast hm
    linarith
  intro k
  induction k with
  | zero => intro h; cases h
  | succ k ih =>
      intro _
      by_cases hk0 : k = 0
      · -- k + 1 = 1: this frame lands
        subst hk0
        simp only [framesToLand]
        have hz : (10 * ((0+1:ℕ):ℚ) / m - GRAVITY * (1 / (3 * (m:ℚ)))) = 0 := by
          unfold GRAVITY
          rw [sub_eq_zero]
          push_cast
          field_simp
          ring
        rw [updatePhysics_jump_land _ _ _ _ _ (by rw [hz]; norm_num)]
        simp
      · -- k ≥ 1: this frame stays airborne with velocity 10·k/m
        have hk1 : 1 ≤ k := Nat.one_le_iff_ne_zero.mpr hk0
        have hkp : (0:ℚ) < k := by
          have : (1:ℚ) ≤ k := by exact_mod_cast hk1
          linarith
        have harith : 10 * ((k:ℚ) + 1) / m - GRAVITY * (1 / (3 * (m:ℚ))) =
            10 * (k:ℚ) / m := by
          unfold GRAVITY
          field_simp
          ring
        simp only [framesToLand]
        have hstep : (10 * ((k+1:ℕ):ℚ) / m - GRAVITY * (1 / (3 * (m:ℚ)))) =
            10 * (k:ℚ) / m := by
          push_cast
          linarith [harith]
        rw [updatePhysics_jump_air _ _ _ _ _ (by rw [hstep]; positivity)]
        rw [hstep]
        simp only [if_true]
        rw [ih hk1]

/-- C3 (refuted as stated): with `V0 = JUMP_VELOCITY = 10` and
`g = GRAVITY = 30`, for every `m ≥ 2` the frame time `dt = 1/(3m)` makes the
jump land after exactly `m` frames, i.e. after `m·dt = 1/3 = V0/g` seconds —
and this differs from the ballistic time `2·V0/g = 2/3` by more than one
`dt`, for arbitrarily small `dt`.  `updatePhysics` computes
`newY = waterLevel + velocityY·dt` instead of integrating the position, so
the jump ends at the apex time `V0/g`, not at `2·V0/g`. -/
theorem c3_landing_time_is_half_ballistic (m : ℕ) (hm : 2 ≤ m) :
    framesToLand jumpStart (1 / (3 * (m:ℚ))) 0 m = some m ∧
    1 / (3 * (m:ℚ)) < 2 * JUMP_VELOCITY / GRAVITY - (m:ℚ) * (1 / (3 * (m:ℚ))) := by
  have hm0 : ((m:ℚ)) ≠ 0 := Nat.cast_ne_zero.mpr (by omega)
  have hm2 : (2:ℚ) ≤ m := by exact_mod_cast hm
  constructor
  · have hj : jumpStart = (⟨10 * (m:ℚ) / (m:ℚ), true, false, 0, 0⟩ : PhysicsState) := by
      have : (10 : ℚ) * (m:ℚ) / (m:ℚ) = 10 := by field_simp
      rw [this]
      unfold jumpStart triggerJump createPhysicsState JUMP_VELOCITY
      norm_num
    rw [hj]
    exact framesToLand_linear m (by omega) m (by omega)
  · unfold JUMP_VELOCITY GRAVITY
    have hmt : (m:ℚ) * (1 / (3 * (m:ℚ))) = 1/3 := by
      rw [mul_one_div, div_eq_div_iff (by positivity) (by norm_num)]
      ring
    rw [hmt]
    have h23 : 2 * (10:ℚ) / 30 - 1/3 = 1/3 := by norm_num
    rw [h23]
    rw [div_lt_div_iff (by positivity) (by norm_num)]
    linarith

/-- Witness for C3's refutation at `m = 2` (`dt = 1/6`). -/
theorem c3_landing_time_is_half_ballistic_witness :
    framesToLand jumpStart (1 / (3 * ((2:ℕ):ℚ))) 0 2 = some 2 ∧
    1 / (3 * ((2:ℕ):ℚ)) <
      2 * JUMP_VELOCITY / GRAVITY - ((2:ℕ):ℚ) * (1 / (3 * ((2:ℕ):ℚ))) :=
  c3_landing_time_is_half_ballistic 2 (by norm_num)

/-! ### C4: the anti-repeat invariant of obstacle spawning

The trailing-run count of a history is the leading-run count of its
reverse; the lemmas below work on that reversed form. -/

/-- Leading-run length: how many copies of the head start the list (the
head itself always counts, so only the rest is scanned). -/
def leadRun : List ObstacleType → ℕ
  | [] => 0
  | t :: r => 1 + (r.takeWhile (fun x => decide (x = t))).length

theorem consecutiveCount_eq_leadRun (l : List ObstacleType) :
    consecutiveCount l = leadRun l.reverse := by
  cases hrev : l.reverse with
  | nil =>
      have h0 : l = [] := List.reverse_eq_nil_iff.mp hrev
      subst h0
      rfl
  | cons t r =>
      have hlast : l.getLast? = some t := by
        rw [← List.head?_reverse, hrev]
        rfl
      unfold consecutiveCount
      rw [hlast, hrev]
      show ((t :: r).takeWhile (fun x => decide (x = t))).length = leadRun (t :: r)
      rw [List.takeWhile_cons, if_pos (by simp)]
      show (r.takeWhile (fun x => decide (x = t))).length + 1 = 1 + _
      omega

/-- Peeling one element off the front of a leading run. -/
theorem leadRun_cons (t : ObstacleType) (r : List ObstacleType) :
    leadRun (t :: r) = 1 + (if r.head? = some t then leadRun r else 0) := by
  cases r with
  | nil => simp [leadRun]
  | cons u r' =>
      by_cases h : u = t
      · subst h
        show 1 + ((u :: r').takeWhile (fun x => decide (x = u))).length = _
        rw [List.takeWhile_cons, if_pos (by simp)]
        simp only [List.head?_cons, Option.some.injEq, eq_self_iff_true, if_true]
        show 1 + ((r'.takeWhile (fun x => decide (x = u))).length + 1) = 1 + leadRun (u :: r')
        show _ = 1 + (1 + (r'.takeWhile (fun x => decide (x = u))).length)
        omega
      · show 1 + ((u :: r').takeWhile (fun x => decide (x = t))).length = _
        rw [List.takeWhile_cons, if_neg (by simp [h])]
        simp [h]

/-- `takeWhile` ignores the removed last element as long as it did not reach
the end of the list. -/
theorem takeWhile_dropLast (p : ObstacleType → Bool) :
    ∀ l : List ObstacleType, (l.takeWhile p).length < l.length →
      l.dropLast.takeWhile p = l.takeWhile p := by
  intro l
  induction l with
  | nil => intro h; cases h
  | cons a l' ih =>
      intro h
      cases l' with
      | nil =>
          cases hp : p a with
          | false => simp [List.takeWhile_cons, hp]
          | true => simp [List.takeWhile_cons, hp] at h
      | cons b l'' =>
          rw [List.dropLast_cons₂]
          cases hp : p a with
          | false => simp [List.takeWhile_cons, hp]
          | true =>
              have hlt : ((b :: l'').takeWhile p).length < (b :: l'').length := by
                rw [List.takeWhile_cons, hp] at h
                simp only [if_true, List.length_cons] at h ⊢
                omega
              have hih := ih hlt
              simp [List.takeWhile_cons, hp, hih]

/-- Dropping the last element does not change a leading run that stops
before the end. -/
theorem leadRun_dropLast (r : List ObstacleType) (h : leadRun r < r.length) :
    leadRun r.dropLast = leadRun r := by
  cases r with
  | nil => cases h
  | cons t r' =>
      cases r' with
      | nil => simp [leadRun] at h
      | cons u r'' =>
          rw [List.dropLast_cons₂]
          show 1 + (((u :: r'').dropLast).takeWhile (fun x => decide (x = t))).length =
            1 + ((u :: r'').takeWhile (fun x => decide (x = t))).length
          have htw : ((u :: r'').takeWhile (fun x => decide (x = t))).length <
              (u :: r'').length := by
            have hlen : leadRun (t :: u :: r'') =
                1 + ((u :: r'').takeWhile (fun x => decide (x = t))).length := rfl
            rw [hlen] at h
            simp only [List.length_cons] at h ⊢
            omega
          rw [takeWhile_dropLast _ _ htw]

/-- The last element survives taking the tail of a list whose tail is
nonempty. -/
theorem getLast?_tail_of_ne_nil (l : List ObstacleType) (h : l.tail ≠ []) :
    l.tail.getLast? = l.getLast? := by
  cases l with
  | nil => exact absurd rfl h
  | cons x r =>
      simp only [List.tail_cons] at h ⊢
      rcases List.eq_nil_or_concat r with h0 | ⟨L, b, h0⟩
      · exact absurd h0 h
      · subst h0
        rw [List.concat_eq_append, List.getLast?_concat,
          show x :: (L ++ [b]) = (x :: L) ++ [b] from rfl, List.getLast?_concat]

/-- Reversing a tail drops the last element of the reverse. -/
theorem reverse_tail_eq_dropLast (l : List ObstacleType) :
    l.tail.reverse = l.reverse.dropLast := by
  cases l with
  | nil => rfl
  | cons x r => simp [List.dropLast_concat]

/-- When the duplication cap is reached, the selected type differs from the
trailing type of the history. -/
theorem selectObstacleType_ne_last (history : List ObstacleType) (tr : ℕ)
    (u : ObstacleType) (hlast : history.getLast? = some u)
    (hcc : MAX_OBSTACLE_DUPLICATION ≤ consecutiveCount history) :
    selectObstacleType history tr ≠ u := by
  unfold selectObstacleType
  rw [if_pos hcc, hlast]
  simp only [Option.getD_some]
  have h2 : tr % 2 = 0 ∨ tr % 2 = 1 := Nat.mod_two_eq_zero_or_one tr
  cases u <;>
    (show (allObstacleTypes.filter _).getD _ _ ≠ _
     rcases h2 with h2 | h2 <;>
       simp [allObstacleTypes, getJumpObstacleTypes, getDiveObstacleTypes,
         List.filter, h2, List.getD])

/-- The spawn-history invariant: the capped history and the ghost trace end
alike, share the same trailing-run count, that count never exceeds 2, and
the trace has no triple run. -/
def SpawnInv (st : ObstacleManagerState) : Prop :=
  st.obstacleHistory.getLast? = st.spawnedTypes.getLast? ∧
  consecutiveCount st.obstacleHistory = consecutiveCount st.spawnedTypes ∧
  consecutiveCount st.spawnedTypes ≤ 2 ∧
  ∀ u, ¬ ([u, u, u] <:+: st.spawnedTypes)

theorem spawnInv_initial : SpawnInv initialObstacleManagerState := by
  refine ⟨rfl, rfl, by decide, fun u hinf => ?_⟩
  have h0 : ([u, u, u] : List ObstacleType) = [] := by
    simpa using List.eq_nil_of_infix_nil hinf
  cases h0

/-- Core facts about appending the selected type: the capped history and
the trace keep equal trailing-run counts, the count stays at most 2, and no
triple run appears. -/
theorem spawn_step_core (hh s : List ObstacleType) (tr : ℕ)
    (hlast : hh.getLast? = s.getLast?)
    (hcnt : consecutiveCount hh = consecutiveCount s)
    (_hle : consecutiveCount s ≤ 2)
    (hno : ∀ u, ¬ ([u, u, u] <:+: s)) :
    consecutiveCount (hh ++ [selectObstacleType hh tr]) =
      consecutiveCount (s ++ [selectObstacleType hh tr]) ∧
    consecutiveCount (s ++ [selectObstacleType hh tr]) ≤ 2 ∧
    ∀ u, ¬ ([u, u, u] <:+: (s ++ [selectObstacleType hh tr])) := by
  set t := selectObstacleType hh tr with ht
  have hlr : leadRun hh.reverse = leadRun s.reverse := by
    rw [← consecutiveCount_eq_leadRun, ← consecutiveCount_eq_leadRun]
    exact hcnt
  have hrevs : (s ++ [t]).reverse = t :: s.reverse := by simp
  have hrevh : (hh ++ [t]).reverse = t :: hh.reverse := by simp
  have hcc_eq : consecutiveCount (hh ++ [t]) = consecutiveCount (s ++ [t]) := by
    rw [consecutiveCount_eq_leadRun, consecutiveCount_eq_leadRun, hrevs, hrevh,
      leadRun_cons, leadRun_cons, List.head?_reverse, List.head?_reverse,
      hlast, hlr]
  have hnew_le : consecutiveCount (s ++ [t]) ≤ 2 := by
    rw [consecutiveCount_eq_leadRun, hrevs, leadRun_cons]
    by_cases hh2 : s.reverse.head? = some t
    · rw [if_pos hh2]
      by_cases hc2 : 2 ≤ leadRun s.reverse
      · exfalso
        rw [List.head?_reverse] at hh2
        have hhlast : hh.getLast? = some t := by rw [hlast]; exact hh2
        have hhcc : MAX_OBSTACLE_DUPLICATION ≤ consecutiveCount hh := by
          show 2 ≤ _
          rw [consecutiveCount_eq_leadRun, hlr]
          exact hc2
        exact selectObstacleType_ne_last hh tr t hhlast hhcc rfl
      · push_neg at hc2
        omega
    · rw [if_neg hh2]
      omega
  refine ⟨hcc_eq, hnew_le, ?_⟩
  intro u hinf
  have hrev : [u, u, u] <:+: (t :: s.reverse) := by
    have hr := List.reverse_infix.mpr hinf
    rw [hrevs] at hr
    simpa using hr
  rcases List.infix_cons_iff.mp hrev with hpre | hinf2
  · rw [List.cons_prefix_cons] at hpre
    obtain ⟨hut, hpre2⟩ := hpre
    obtain ⟨r2, hr2⟩ := hpre2
    have hle3 : leadRun (t :: s.reverse) ≤ 2 := by
      have hx := hnew_le
      rw [consecutiveCount_eq_leadRun, hrevs] at hx
      exact hx
    rw [← hut, ← hr2] at hle3
    have hle3' : leadRun (u :: u :: u :: r2) ≤ 2 := hle3
    have h3 : 3 ≤ leadRun (u :: u :: u :: r2) := by
      show 3 ≤ 1 + ((u :: u :: r2).takeWhile (fun x => decide (x = u))).length
      rw [List.takeWhile_cons, if_pos (by simp),
        List.takeWhile_cons, if_pos (by simp)]
      simp only [List.length_cons]
      omega
    omega
  · have hrr : ([u, u, u] : List ObstacleType).reverse <:+: s.reverse := by
      simpa using hinf2
    exact hno u (List.reverse_infix.mp hrr)

/-- Evicting the oldest history entry preserves the trailing-run count and
the last element, provided the history is long and its run is short. -/
theorem consecutiveCount_tail_append (hh : List ObstacleType) (t : ObstacleType)
    (hlen : 10 ≤ hh.length) (hcc : consecutiveCount hh ≤ 2) :
    consecutiveCount (hh.tail ++ [t]) = consecutiveCount (hh ++ [t]) := by
  have htne : hh.tail ≠ [] := by
    cases hh with
    | nil => simp at hlen
    | cons a r =>
        intro he
        simp only [List.tail_cons] at he
        subst he
        simp at hlen
  rw [consecutiveCount_eq_leadRun, consecutiveCount_eq_leadRun,
    show (hh.tail ++ [t]).reverse = t :: hh.tail.reverse by simp,
    show (hh ++ [t]).reverse = t :: hh.reverse by simp,
    leadRun_cons, leadRun_cons]
  have hhead : hh.tail.reverse.head? = hh.reverse.head? := by
    rw [List.head?_reverse, List.head?_reverse]
    exact getLast?_tail_of_ne_nil _ htne
  have hlr2 : leadRun hh.tail.reverse = leadRun hh.reverse := by
    rw [reverse_tail_eq_dropLast]
    apply leadRun_dropLast
    rw [List.length_reverse]
    rw [consecutiveCount_eq_leadRun] at hcc
    omega
  rw [hhead, hlr2]

theorem spawnInv_trySpawn (st : ObstacleManagerState) (wo gr : ℚ) (tr : ℕ)
    (h : SpawnInv st) : SpawnInv (trySpawn st wo gr tr) := by
  obtain ⟨hlast, hcnt, hle, hno⟩ := h
  simp only [trySpawn]
  split_ifs with h1 h2 hcap
  · exact ⟨hlast, hcnt, hle, hno⟩
  · exact ⟨hlast, hcnt, hle, hno⟩
  · -- spawn branch, history cap reached: evict the oldest entry
    obtain ⟨hcc_eq, hnew_le, hno'⟩ :=
      spawn_step_core st.obstacleHistory st.spawnedTypes tr hlast hcnt hle hno
    set t := selectObstacleType st.obstacleHistory tr with ht
    have hhne : st.obstacleHistory ≠ [] := by
      intro he
      rw [he] at hcap
      simp at hcap
    have hlen10 : 10 ≤ st.obstacleHistory.length := by
      rw [List.length_append] at hcap
      simp only [List.length_cons, List.length_nil] at hcap
      omega
    have htail : (st.obstacleHistory ++ [t]).tail =
        st.obstacleHistory.tail ++ [t] := List.tail_append_of_ne_nil hhne
    refine ⟨?_, ?_, hnew_le, hno'⟩
    · rw [htail, List.getLast?_concat, List.getLast?_concat]
    · rw [htail, consecutiveCount_tail_append st.obstacleHistory t hlen10
        (by rw [hcnt]; exact hle), hcc_eq]
  · -- spawn branch, history below the cap
    obtain ⟨hcc_eq, hnew_le, hno'⟩ :=
      spawn_step_core st.obstacleHistory st.spawnedTypes tr hlast hcnt hle hno
    refine ⟨?_, hcc_eq, hnew_le, hno'⟩
    rw [List.getLast?_concat, List.getLast?_concat]

/-- C4: across any sequence of `trySpawn` calls from a freshly reset
manager, the sequence of successfully spawned obstacle types never contains
a run of 3 or more identical consecutive types. -/
theorem c4_no_triple_runs (calls : List SpawnCall) :
    ¬ hasTripleRun (runSpawns calls).spawnedTypes := by
  have hinv : SpawnInv (runSpawns calls) := by
    unfold runSpawns
    have H : ∀ (l : List SpawnCall) (st : ObstacleManagerState), SpawnInv st →
        SpawnInv (l.foldl
          (fun st c => trySpawn st c.worldOffset c.gapRand c.typeRand) st) := by
      intro l
      induction l with
      | nil => exact fun st hst => hst
      | cons c l ih => exact fun st hst => ih _ (spawnInv_trySpawn st _ _ _ hst)
    exact H calls initialObstacleManagerState spawnInv_initial
  obtain ⟨-, -, -, hno⟩ := hinv
  rintro ⟨u, hinf⟩
  exact hno u hinf

end AudioRace
